import Mathlib

/-!
Verification of the vetbox-0.1 triage engine specification.

The repository ships the React frontend (frontend/src/App.tsx, plus an
earlier revision of the same component) and project documentation; the
Python backend implementing the rule-matching engine is not part of the
source tree.  Definitions below therefore come from two places:

* frontend definitions (ChatResponse, the /chat request body, the system
  log update logic, the clear-chat handler) are translated directly from
  frontend/src/App.tsx and the earlier App.tsx revision;
* engine definitions (ConditionSet merge, Rule Matcher, Session
  Controller) are modelled from the specification document, since the
  backend source is absent; each such definition carries a
  `Modelled from the spec:` doc comment.
-/

namespace Vetbox

/-- Modelled from the spec: ordered triage severity,
EMERGENCY > URGENT > ROUTINE (backend rule data is not in the tree). -/
inductive TriageLevel
  | routine
  | urgent
  | emergency
  deriving DecidableEq, Repr

/-- Modelled from the spec: numeric severity rank of a triage level
(higher = more severe). -/
def sevRank : TriageLevel → Nat
  | .routine => 0
  | .urgent => 1
  | .emergency => 2

/-- Modelled from the spec: display name of a triage level. -/
def levelName : TriageLevel → String
  | .routine => "ROUTINE"
  | .urgent => "URGENT"
  | .emergency => "EMERGENCY"

/-- Modelled from the spec: provenance of a condition
(extracted from text vs previously confirmed). -/
inductive CondSource
  | extracted
  | confirmed
  deriving DecidableEq, Repr

/-- Modelled from the spec: a named symptom fact (key, value, source). -/
structure Condition where
  key : String
  value : String
  source : CondSource
  deriving DecidableEq, Repr

/-- Modelled from the spec: the ConditionSet, a mapping from condition key
to Condition, represented as an association list whose invariant is that
no two entries share a key. -/
abbrev ConditionSet := List Condition

/-- The keys asserted in a ConditionSet. -/
def keysOf (C : ConditionSet) : List String := C.map Condition.key

/-- Modelled from the spec: look up the value asserted for a key. -/
def lookupValue (C : ConditionSet) (k : String) : Option String :=
  (C.find? (fun e => e.key = k)).map Condition.value

/-- Modelled from the spec: a diagnostic rule (id, name, required
conditions as key/value pairs, triage level, advice, priority). -/
structure Rule where
  id : Nat
  name : String
  requiredConditions : List (String × String)
  triageLevel : TriageLevel
  advice : String
  priority : Nat
  deriving DecidableEq, Repr

/-- Modelled from the spec: merging one extracted condition into the
ConditionSet.  Re-assertion of an existing key overwrites the prior value
(last-write-wins) unless the new value is "unknown", which never
overwrites a known value; a fresh key is appended. -/
def mergeCondition : ConditionSet → Condition → ConditionSet
  | [], c => [c]
  | e :: rest, c =>
    if e.key = c.key then
      (if c.value = "unknown" && e.value != "unknown" then e else c) :: rest
    else
      e :: mergeCondition rest c

/-- Modelled from the spec: does an asserted value conflict with a rule's
required value?  Only a known mismatch (asserted, not "unknown", and
different from the required value) eliminates a rule. -/
def valueConflicts (req : String) (asserted : Option String) : Bool :=
  match asserted with
  | some w => w != "unknown" && w != req
  | none => false

/-- Modelled from the spec: contradiction filter — a rule is contradicted
when some asserted condition's known value differs from the rule's
required value for the same key. -/
def contradicts (C : ConditionSet) (r : Rule) : Bool :=
  r.requiredConditions.any (fun p => valueConflicts p.2 (lookupValue C p.1))

/-- Modelled from the spec: a required key is missing when it is not yet
present in the ConditionSet or is present as "unknown". -/
def keyMissing (C : ConditionSet) (k : String) : Bool :=
  match lookupValue C k with
  | none => true
  | some w => w = "unknown"

/-- Modelled from the spec: the required keys of a rule still missing from
the ConditionSet. -/
def missingKeys (C : ConditionSet) (r : Rule) : List String :=
  (r.requiredConditions.filter (fun p => keyMissing C p.1)).map Prod.fst

/-- Modelled from the spec: full-match tie-break order — rule `a` beats
rule `b` when it has strictly higher severity; or equal severity and
strictly higher priority; or equal severity and priority and strictly
lower id. -/
def beats (a b : Rule) : Bool :=
  decide (sevRank a.triageLevel > sevRank b.triageLevel
    ∨ (sevRank a.triageLevel = sevRank b.triageLevel
       ∧ (a.priority > b.priority
          ∨ (a.priority = b.priority ∧ a.id < b.id))))

/-- Modelled from the spec: select the best rule of a list under the
full-match tie-break order. -/
def pickBest : List Rule → Option Rule
  | [] => none
  | r :: rs =>
    match pickBest rs with
    | none => some r
    | some b => some (if beats b r then b else r)

/-- Modelled from the spec: ranking order for surviving rules with no full
match — ascending missing-key count, ties by descending priority, then
ascending id. -/
def candBefore (C : ConditionSet) (a b : Rule) : Bool :=
  decide ((missingKeys C a).length < (missingKeys C b).length
    ∨ ((missingKeys C a).length = (missingKeys C b).length
       ∧ (a.priority > b.priority
          ∨ (a.priority = b.priority ∧ a.id ≤ b.id))))

/-- Insertion step of the candidate ranking (insertion sort). -/
def insertRanked (C : ConditionSet) (r : Rule) : List Rule → List Rule
  | [] => [r]
  | x :: xs => if candBefore C r x then r :: x :: xs else x :: insertRanked C r xs

/-- Modelled from the spec: rank surviving rules per the candidate order. -/
def rankCandidates (C : ConditionSet) (l : List Rule) : List Rule :=
  l.foldr (insertRanked C) []

/-- Modelled from the spec: the tagged result of the Rule Matcher. -/
inductive MatchOutcome
  | fullMatch (r : Rule)
  | candidates (cs : List (Rule × List String))
  | noViableRule
  deriving DecidableEq, Repr

/-- Modelled from the spec: rules surviving the contradiction filter. -/
def survivorsOf (C : ConditionSet) (R : List Rule) : List Rule :=
  R.filter (fun r => !contradicts C r)

/-- Modelled from the spec: surviving rules whose required conditions are
all satisfied (no missing key). -/
def fullMatchesOf (C : ConditionSet) (R : List Rule) : List Rule :=
  (survivorsOf C R).filter (fun r => (missingKeys C r).isEmpty)

/-- Modelled from the spec: the Rule Matcher, a pure function from the
ConditionSet and the rule repository to a MatchOutcome: contradiction
filter, satisfaction scan, full-match tie-break, and otherwise the ranked
partial candidates (or NoViableRule when nothing survives). -/
def matchRules (C : ConditionSet) (R : List Rule) : MatchOutcome :=
  match pickBest (fullMatchesOf C R) with
  | some r => .fullMatch r
  | none =>
    if (survivorsOf C R).isEmpty then .noViableRule
    else .candidates ((rankCandidates C (survivorsOf C R)).map (fun r => (r, missingKeys C r)))

/-- The status of a single rule relative to a ConditionSet: contradicted,
fully matched, or pending with the given number of missing keys. -/
inductive RuleStatus
  | contradicted
  | fullMatch
  | pending (missing : Nat)
  deriving DecidableEq, Repr

/-- Status of one rule under the matcher's contradiction filter and
satisfaction scan. -/
def ruleStatus (C : ConditionSet) (r : Rule) : RuleStatus :=
  if contradicts C r then .contradicted
  else if (missingKeys C r).isEmpty then .fullMatch
  else .pending (missingKeys C r).length

/-! ### Session Controller (modelled from the spec) -/

/-- Modelled from the spec: session state — ConditionSet, turn count,
terminal flag. -/
structure Session where
  conditions : ConditionSet
  turnCount : Nat
  terminal : Bool
  deriving DecidableEq, Repr

/-- Modelled from the spec: the INIT state of a brand-new session. -/
def initialSession : Session :=
  { conditions := [], turnCount := 0, terminal := false }

/-- Modelled from the spec: the opening follow-up prompt returned by
clearSession. -/
def openingFollowUp : String :=
  "Please describe your pet\x27s symptoms."

/-- Modelled from the spec: explicit clear, from any state — back to INIT
with ConditionSet and turn counter discarded; returns the opening
prompt. -/
def clearSession (_s : Session) : Session × String :=
  (initialSession, openingFollowUp)

/-- Modelled from the spec: the TurnResult returned by submitAnswer —
either a follow-up question, a terminal triage level with advice, or an
error; the first two carry the ConditionSet snapshot and the
rule-checking log. -/
inductive TurnResult
  | followUp (question : String) (snapshot : ConditionSet) (log : List String)
  | triage (level : String) (advice : String) (snapshot : ConditionSet) (log : List String)
  | error (msg : String)
  deriving DecidableEq, Repr

/-- The status line the backend emits on a complete rule match, as matched
verbatim by frontend/src/App.tsx. -/
def completeMatchMarker : String := "[Status] Complete rule match found!"

/-- Modelled from the spec: the Decision Log, rebuilt fresh each turn as a
pure projection of the matcher stages executed. -/
def decisionLog (C : ConditionSet) (R : List Rule) : List String :=
  ["[Stage] CandidateScan", "[Stage] ContradictionCheck"] ++
  (match matchRules C R with
   | .fullMatch r => [completeMatchMarker, "[Stage] MatchFound " ++ r.name]
   | .candidates _ => ["[Stage] FollowUpChosen"]
   | .noViableRule => ["[Stage] MatchFound no viable rule"])

/-- Does a rule reference a condition key among its requirements? -/
def ruleMentionsKey (r : Rule) (k : String) : Bool :=
  r.requiredConditions.any (fun p => p.1 = k)

/-- Modelled from the spec: how many of the other surviving candidate
rules reference a key. -/
def keyScore (others : List Rule) (k : String) : Nat :=
  (others.filter (fun r => ruleMentionsKey r k)).length

/-- Modelled from the spec: the Follow-Up Selector's key choice — among
the top candidate's missing keys, the one referenced by the most other
surviving rules, ties broken by lexical order. -/
def chooseKey (others : List Rule) : List String → Option String
  | [] => none
  | k :: ks =>
    match chooseKey others ks with
    | none => some k
    | some b =>
      some (if decide (keyScore others k > keyScore others b
              ∨ (keyScore others k = keyScore others b ∧ k < b)) then k else b)

/-- Modelled from the spec: the fallback advice used when the turn budget
is exhausted or no rule is viable. -/
def fallbackAdvice : String := "insufficient data for confident triage"

/-- Modelled from the spec: message surfaced on extractor failure. -/
def extractionFailureMsg : String := "extraction failed"

/-- Modelled from the spec: one conversational turn of the Session
Controller — run the external extractor; on failure surface an error with
the session unchanged; otherwise merge the extracted conditions into the
ConditionSet, invoke the Rule Matcher, and either finalize (full match,
no viable rule, or exhausted turn budget) or emit the selected follow-up
question; a fresh Decision Log accompanies the outcome. -/
def submitAnswer (extract : String → ConditionSet → Option (List Condition))
    (R : List Rule) (questionTemplates : String → String) (maxTurns : Nat)
    (s : Session) (text : String) : Session × TurnResult :=
  match extract text s.conditions with
  | none => (s, .error extractionFailureMsg)
  | some newConds =>
    let C := newConds.foldl mergeCondition s.conditions
    let n := s.turnCount + 1
    let log := decisionLog C R
    match matchRules C R with
    | .fullMatch r =>
      ({ conditions := C, turnCount := n, terminal := true },
       .triage (levelName r.triageLevel) r.advice C log)
    | .noViableRule =>
      ({ conditions := C, turnCount := n, terminal := true },
       .triage (levelName .routine) fallbackAdvice C log)
    | .candidates cs =>
      if n > maxTurns then
        ({ conditions := C, turnCount := n, terminal := true },
         .triage (levelName .routine) fallbackAdvice C log)
      else
        let q :=
          match cs with
          | [] => ""
          | (h, _) :: t =>
            questionTemplates ((chooseKey (t.map Prod.fst) (missingKeys C h)).getD "")
        ({ conditions := C, turnCount := n, terminal := false },
         .followUp q C log)

/-! ### Frontend embedding (from frontend/src/App.tsx and the earlier
App.tsx revision in the tree) -/

/-- A chat message as frontend/src/App.tsx keeps it (id and timestamp,
which are wall-clock values, are omitted from the embedding). -/
structure FrontMessage where
  text : String
  sender : String
  isError : Bool
  deriving DecidableEq, Repr

/-- A system-log entry as frontend/src/App.tsx keeps it (id and timestamp
omitted as above). -/
structure FrontLogEntry where
  text : String
  kind : String
  deriving DecidableEq, Repr

/-- The frontend component state relevant here: the message list and the
system-log list. -/
structure FrontState where
  messages : List FrontMessage
  systemLogs : List FrontLogEntry
  deriving DecidableEq, Repr

/-- The welcome message text of frontend/src/App.tsx. -/
def welcomeText : String :=
  "Hello! I\x27m your veterinary triage assistant. Please describe your pet\x27s symptoms and I\x27ll help assess the situation."

/-- The initial frontend state: the welcome message, no system logs. -/
def initialFrontState : FrontState :=
  { messages := [{ text := welcomeText, sender := "bot", isError := false }],
    systemLogs := [] }

/-- The ChatResponse interface of frontend/src/App.tsx: follow_up_question
plus optional extracted_conditions, rule_checking_logs and error.  The
extracted_conditions payload is kept as its JSON serialization, which is
all the component uses it for. -/
structure ChatResponse where
  follow_up_question : Option String
  extracted_conditions : Option String
  rule_checking_logs : Option (List String)
  error : Option String
  deriving DecidableEq, Repr

/-- Field names of the ChatResponse interface declared in
frontend/src/App.tsx. -/
def chatResponseFields : List String :=
  ["follow_up_question", "extracted_conditions", "rule_checking_logs", "error"]

/-- Field names of the ChatResponse type declared in the earlier App.tsx
revision (triage_level, advice, optional error). -/
def legacyChatResponseFields : List String :=
  ["triage_level", "advice", "error"]

/-- The JSON body both App.tsx revisions POST to the /chat endpoint:
exactly one field, user_answer, holding the raw user text. -/
def chatRequestBody (userMessage : String) : List (String × String) :=
  [("user_answer", userMessage)]

/-- JavaScript truthiness of an optional string: present and non-empty. -/
def strTruthy : Option String → Bool
  | none => false
  | some s => s != ""

/-- Does the character list start with the pattern? -/
def startsWithList : List Char → List Char → Bool
  | [], _ => true
  | _ :: _, [] => false
  | p :: ps, c :: cs => decide (p = c) && startsWithList ps cs

/-- Does the character list contain the pattern as a contiguous
sublist? -/
def containsList (pat : List Char) : List Char → Bool
  | [] => startsWithList pat []
  | c :: cs => startsWithList pat (c :: cs) || containsList pat cs

/-- Substring test on strings (the embedding of JavaScript
String.prototype.includes). -/
def strContainsSub (s pat : String) : Bool :=
  containsList pat.data s.data

/-- frontend/src/App.tsx line 134: some rule-checking log line includes
the complete-match marker. -/
def hasCompleteMatch (logs : List String) : Bool :=
  logs.any (fun l => strContainsSub l completeMatchMarker)

/-- frontend/src/App.tsx line 135: the system-log block title. -/
def logTitle (logs : List String) : String :=
  if hasCompleteMatch logs then "Found a Match" else "Generate Follow-Up Question"

/-- The newLogs array handleSubmit builds for one turn: the Case Data
entry when extracted_conditions exists, then the titled rule-checking
entry when rule_checking_logs is non-empty. -/
def buildTurnLogs (resp : ChatResponse) : List FrontLogEntry :=
  (match resp.extracted_conditions with
   | some conds => [{ text := "Case Data\n" ++ conds, kind := "info" }]
   | none => []) ++
  (match resp.rule_checking_logs with
   | some logs =>
     if logs.length > 0 then
       [{ text := logTitle logs ++ "\n" ++ String.intercalate "\n" logs, kind := "info" }]
     else []
   | none => [])

/-- The addMessage helper of frontend/src/App.tsx: append one message. -/
def addMessageF (s : FrontState) (text sender : String) (isErr : Bool) : FrontState :=
  { s with messages := s.messages ++ [{ text := text, sender := sender, isError := isErr }] }

/-- The response-handling branch of handleSubmit in frontend/src/App.tsx:
on a truthy error field append an error message; otherwise on a truthy
follow_up_question REPLACE the system logs with this turn's newLogs and
append the bot message; otherwise append a fallback error message. -/
def processResponse (s : FrontState) (resp : ChatResponse) : FrontState :=
  if strTruthy resp.error then
    addMessageF s ((resp.error).getD "") "bot" true
  else if strTruthy resp.follow_up_question then
    { messages := s.messages ++
        [{ text := (resp.follow_up_question).getD "", sender := "bot", isError := false }],
      systemLogs := buildTurnLogs resp }
  else
    addMessageF s "I received your message but couldn\x27t generate a proper response. Please try again." "bot" true

/-- One full frontend turn: the user message is appended before the fetch,
then the response is processed. -/
def frontendTurn (s : FrontState) (userMsg : String) (resp : ChatResponse) : FrontState :=
  processResponse (addMessageF s userMsg "user" false) resp

/-- The handleClearChat success path of frontend/src/App.tsx: the message
list is reset to a single welcome message holding the server's
follow_up_question, and the system logs are cleared. -/
def handleClearChat (_s : FrontState) (followUp : String) : FrontState :=
  { messages := [{ text := followUp, sender := "bot", isError := false }],
    systemLogs := [] }

/-! ### Lemmas about the full-match tie-break -/

theorem beats_irrefl (a : Rule) : beats a a = false := by
  simp [beats]

theorem beats_asymm {a b : Rule} (h : beats a b = true) : beats b a = false := by
  simp only [beats, decide_eq_true_eq] at h
  simp only [beats, decide_eq_false_iff_not]
  omega

theorem not_beats_trans {a b c : Rule} (hab : beats a b = false) (hbc : beats b c = false) :
    beats a c = false := by
  simp only [beats, decide_eq_false_iff_not] at hab hbc ⊢
  omega

theorem beats_total_of_id_ne {a b : Rule} (h : a.id ≠ b.id) :
    beats a b = true ∨ beats b a = true := by
  simp only [beats, decide_eq_true_eq]
  omega

theorem pickBest_mem {l : List Rule} {b : Rule} (h : pickBest l = some b) : b ∈ l := by
  induction l generalizing b with
  | nil => simp [pickBest] at h
  | cons r rs ih =>
    rw [pickBest] at h
    cases hrs : pickBest rs with
    | none =>
      rw [hrs] at h
      simp only [Option.some.injEq] at h
      subst h
      exact List.mem_cons_self _ _
    | some b0 =>
      rw [hrs] at h
      simp only [Option.some.injEq] at h
      split at h
      · subst h
        exact List.mem_cons_of_mem _ (ih hrs)
      · subst h
        exact List.mem_cons_self _ _

theorem pickBest_not_beaten {l : List Rule} {b : Rule} (h : pickBest l = some b) :
    ∀ x ∈ l, beats x b = false := by
  induction l generalizing b with
  | nil => simp [pickBest] at h
  | cons r rs ih =>
    rw [pickBest] at h
    cases hrs : pickBest rs with
    | none =>
      rw [hrs] at h
      simp only [Option.some.injEq] at h
      intro x hx
      have hrs' : rs = [] := by
        cases rs with
        | nil => rfl
        | cons y ys =>
          rw [pickBest] at hrs
          cases hys : pickBest ys <;> rw [hys] at hrs <;> simp at hrs
      subst hrs'
      have hx' : x = r := by simpa using hx
      rw [← h, hx']
      exact beats_irrefl r
    | some b0 =>
      rw [hrs] at h
      simp only [Option.some.injEq] at h
      intro x hx
      rcases List.mem_cons.mp hx with hxr | hxrs
      · subst hxr
        split at h
        · subst h
          exact beats_asymm (by assumption)
        · subst h
          exact beats_irrefl x
      · have hx0 := ih hrs x hxrs
        split at h
        · subst h
          exact hx0
        · subst h
          exact not_beats_trans hx0 (by simp_all)

theorem pickBest_isSome {l : List Rule} (h : l ≠ []) : ∃ b, pickBest l = some b := by
  cases l with
  | nil => exact absurd rfl h
  | cons r rs =>
    rw [pickBest]
    cases pickBest rs <;> simp

theorem fullMatchesOf_sublist (C : ConditionSet) (R : List Rule) :
    (fullMatchesOf C R).Sublist R :=
  (List.filter_sublist _).trans (List.filter_sublist _)

/-- C1: if two or more rules are simultaneously fully matched, the Rule
Matcher returns a full match whose winner has the highest triageLevel
severity; among rules of equal severity the higher priority; and among
rules equal in both, the lowest rule id (the winner strictly beats every
other fully matched rule in this lexicographic order). -/
theorem c1_full_match_tiebreak (C : ConditionSet) (R : List Rule)
    (hids : R.Pairwise (fun a b => a.id ≠ b.id))
    (r1 r2 : Rule) (h1 : r1 ∈ fullMatchesOf C R) (h2 : r2 ∈ fullMatchesOf C R)
    (hne : r1 ≠ r2) :
    ∃ b, matchRules C R = .fullMatch b ∧ b ∈ fullMatchesOf C R ∧
      ∀ r ∈ fullMatchesOf C R, r ≠ b →
        sevRank b.triageLevel > sevRank r.triageLevel
        ∨ (sevRank b.triageLevel = sevRank r.triageLevel
           ∧ (b.priority > r.priority
              ∨ (b.priority = r.priority ∧ b.id < r.id))) := by
  have hnil : fullMatchesOf C R ≠ [] := by
    intro hempty
    rw [hempty] at h1
    exact absurd h1 (List.not_mem_nil r1)
  obtain ⟨b, hb⟩ := pickBest_isSome hnil
  refine ⟨b, ?_, pickBest_mem hb, ?_⟩
  · unfold matchRules
    rw [hb]
  · intro r hr hrb
    have hpair : (fullMatchesOf C R).Pairwise (fun a b => a.id ≠ b.id) :=
      hids.sublist (fullMatchesOf_sublist C R)
    have hsymm : Symmetric (fun a b : Rule => a.id ≠ b.id) := fun _ _ h => h.symm
    have hidne : r.id ≠ b.id := hpair.forall hsymm hr (pickBest_mem hb) hrb
    have hnb : beats r b = false := pickBest_not_beaten hb r hr
    rcases beats_total_of_id_ne hidne with htot | htot
    · rw [htot] at hnb
      cases hnb
    · simpa only [beats, decide_eq_true_eq] using htot

/-- Concrete data for witnesses: one asserted condition and two rules both
fully satisfied by it, with different severities. -/
def exCondVomiting : Condition :=
  { key := "vomiting", value := "yes", source := .extracted }

def exRuleUrgent : Rule :=
  { id := 1, name := "urgent vomiting", requiredConditions := [("vomiting", "yes")],
    triageLevel := .urgent, advice := "see a vet promptly", priority := 0 }

def exRuleRoutine : Rule :=
  { id := 2, name := "routine vomiting", requiredConditions := [("vomiting", "yes")],
    triageLevel := .routine, advice := "monitor at home", priority := 0 }

def exRepo : List Rule := [exRuleRoutine, exRuleUrgent]

def exCondSet : ConditionSet := [exCondVomiting]

/-- Witness for C1 at a concrete repository: both example rules fully
match and the tie-break conclusion holds for the returned winner. -/
theorem c1_full_match_tiebreak_witness :
    exRepo.Pairwise (fun a b => a.id ≠ b.id)
    ∧ exRuleRoutine ∈ fullMatchesOf exCondSet exRepo
    ∧ exRuleUrgent ∈ fullMatchesOf exCondSet exRepo
    ∧ exRuleRoutine ≠ exRuleUrgent
    ∧ ∃ b, matchRules exCondSet exRepo = .fullMatch b ∧ b ∈ fullMatchesOf exCondSet exRepo ∧
        ∀ r ∈ fullMatchesOf exCondSet exRepo, r ≠ b →
          sevRank b.triageLevel > sevRank r.triageLevel
          ∨ (sevRank b.triageLevel = sevRank r.triageLevel
             ∧ (b.priority > r.priority
                ∨ (b.priority = r.priority ∧ b.id < r.id))) :=
  ⟨by decide, by decide, by decide, by decide,
   c1_full_match_tiebreak exCondSet exRepo (by decide) exRuleRoutine exRuleUrgent
     (by decide) (by decide) (by decide)⟩

/-! ### Lemmas about ConditionSet merge -/

theorem lookupValue_nil (k : String) : lookupValue [] k = none := rfl

theorem lookupValue_cons (e : Condition) (l : ConditionSet) (k : String) :
    lookupValue (e :: l) k = if e.key = k then some e.value else lookupValue l k := by
  unfold lookupValue
  rw [List.find?_cons]
  by_cases h : e.key = k
  · simp [h]
  · simp [h]

theorem keysOf_merge_of_mem (C : ConditionSet) (c : Condition)
    (hmem : c.key ∈ keysOf C) : keysOf (mergeCondition C c) = keysOf C := by
  induction C with
  | nil => simp [keysOf] at hmem
  | cons e rest ih =>
    rw [mergeCondition]
    by_cases he : e.key = c.key
    · rw [if_pos he]
      split <;> simp [keysOf, he]
    · rw [if_neg he]
      have hmem' : c.key ∈ keysOf rest := by
        rcases List.mem_cons.mp hmem with h | h
        · exact absurd h.symm he
        · exact h
      show e.key :: keysOf (mergeCondition rest c) = keysOf (e :: rest)
      rw [ih hmem']
      rfl

theorem keysOf_merge_of_not_mem (C : ConditionSet) (c : Condition)
    (hmem : c.key ∉ keysOf C) : keysOf (mergeCondition C c) = keysOf C ++ [c.key] := by
  induction C with
  | nil => simp [mergeCondition, keysOf]
  | cons e rest ih =>
    rw [mergeCondition]
    have he : e.key ≠ c.key := fun h => hmem (List.mem_cons.mpr (Or.inl h.symm))
    rw [if_neg he]
    have hmem' : c.key ∉ keysOf rest := fun h => hmem (List.mem_cons_of_mem _ h)
    show e.key :: keysOf (mergeCondition rest c) = keysOf (e :: rest) ++ [c.key]
    rw [ih hmem']
    rfl

theorem lookupValue_merge_ne (C : ConditionSet) (c : Condition) (k : String)
    (hk : k ≠ c.key) : lookupValue (mergeCondition C c) k = lookupValue C k := by
  induction C with
  | nil => simp [mergeCondition, lookupValue_cons, lookupValue_nil, Ne.symm hk]
  | cons e rest ih =>
    rw [mergeCondition]
    by_cases he : e.key = c.key
    · rw [if_pos he]
      split
      · rfl
      · rw [lookupValue_cons, lookupValue_cons]
        rw [if_neg (Ne.symm hk), if_neg (he ▸ Ne.symm hk ∘ Eq.symm ∘ Eq.symm)]
      -- both heads carry key c.key ≠ k
    · rw [if_neg he]
      rw [lookupValue_cons, lookupValue_cons]
      by_cases hek : e.key = k
      · simp [hek]
      · simp [hek, ih]

theorem lookupValue_merge_key (C : ConditionSet) (c : Condition) :
    lookupValue (mergeCondition C c) c.key =
      match lookupValue C c.key with
      | some w => if c.value = "unknown" ∧ w ≠ "unknown" then some w else some c.value
      | none => some c.value := by
  induction C with
  | nil => simp [mergeCondition, lookupValue_cons, lookupValue_nil]
  | cons e rest ih =>
    rw [mergeCondition]
    by_cases he : e.key = c.key
    · rw [if_pos he]
      by_cases hcu : c.value = "unknown" <;> by_cases heu : e.value = "unknown" <;>
        simp [lookupValue_cons, he, hcu, heu, bne_iff_ne]
    · rw [if_neg he]
      simp [lookupValue_cons, he, ih]

/-- C2: merging a condition into a ConditionSet with unique keys keeps the
keys unique, leaves every other key's value untouched, replaces the value
at the re-asserted key (last-write-wins) — except that a new value of
"unknown" never overwrites an already-known value, while it does land when
the key was absent or previously "unknown". -/
theorem c2_condition_merge (C : ConditionSet) (c : Condition)
    (hnodup : (keysOf C).Nodup) :
    (keysOf (mergeCondition C c)).Nodup
    ∧ (∀ k, k ≠ c.key → lookupValue (mergeCondition C c) k = lookupValue C k)
    ∧ (∀ w, lookupValue C c.key = some w → w ≠ "unknown" → c.value = "unknown" →
        lookupValue (mergeCondition C c) c.key = some w)
    ∧ (c.value ≠ "unknown" → lookupValue (mergeCondition C c) c.key = some c.value)
    ∧ (lookupValue C c.key = some "unknown" →
        lookupValue (mergeCondition C c) c.key = some c.value)
    ∧ (lookupValue C c.key = none →
        lookupValue (mergeCondition C c) c.key = some c.value) := by
  refine ⟨?_, ?_, ?_, ?_, ?_, ?_⟩
  · by_cases hmem : c.key ∈ keysOf C
    · rw [keysOf_merge_of_mem C c hmem]
      exact hnodup
    · rw [keysOf_merge_of_not_mem C c hmem]
      simp [List.nodup_append, hnodup, hmem]
  · exact fun k hk => lookupValue_merge_ne C c k hk
  · intro w hw hwu hcu
    rw [lookupValue_merge_key, hw]
    simp [hcu, hwu]
  · intro hcu
    rw [lookupValue_merge_key]
    cases lookupValue C c.key with
    | none => rfl
    | some w => simp [hcu]
  · intro hw
    rw [lookupValue_merge_key, hw]
    simp
  · intro hw
    rw [lookupValue_merge_key, hw]

/-- A re-asserted "unknown" value for the witness of C2. -/
def exCondUnknown : Condition :=
  { key := "vomiting", value := "unknown", source := .extracted }

/-- Witness for C2 at a concrete ConditionSet: re-asserting "unknown" over
the known value "yes" leaves the known value in place, and keys stay
unique. -/
theorem c2_condition_merge_witness :
    (keysOf exCondSet).Nodup
    ∧ (keysOf (mergeCondition exCondSet exCondUnknown)).Nodup
    ∧ lookupValue (mergeCondition exCondSet exCondUnknown) "vomiting" = some "yes" :=
  ⟨by decide,
   (c2_condition_merge exCondSet exCondUnknown (by decide)).1,
   (c2_condition_merge exCondSet exCondUnknown (by decide)).2.2.1 "yes"
     (by decide) (by decide) (by decide)⟩

/-! ### Lemmas about matcher monotonicity -/

theorem lookupValue_eq_none_of_fresh (C : ConditionSet) (c : Condition)
    (hfresh : ∀ e ∈ C, e.key ≠ c.key) : lookupValue C c.key = none := by
  have hfind : C.find? (fun e => e.key = c.key) = none := by
    rw [List.find?_eq_none]
    intro x hx
    simp [hfresh x hx]
  simp [lookupValue, hfind]

theorem contradicts_insert_of_contradicts {C : ConditionSet} {c : Condition} {r : Rule}
    (hfresh : ∀ e ∈ C, e.key ≠ c.key) (h : contradicts C r = true) :
    contradicts (c :: C) r = true := by
  unfold contradicts at h ⊢
  rw [List.any_eq_true] at h ⊢
  obtain ⟨p, hp, hv⟩ := h
  refine ⟨p, hp, ?_⟩
  have hk : p.1 ≠ c.key := by
    intro hkey
    rw [hkey, lookupValue_eq_none_of_fresh C c hfresh] at hv
    simp [valueConflicts] at hv
  rw [lookupValue_cons, if_neg (Ne.symm hk)]
  exact hv

theorem keyMissing_insert_imp (C : ConditionSet) (c : Condition) (k : String)
    (hfresh : ∀ e ∈ C, e.key ≠ c.key) (h : keyMissing (c :: C) k = true) :
    keyMissing C k = true := by
  by_cases hk : k = c.key
  · subst hk
    unfold keyMissing
    rw [lookupValue_eq_none_of_fresh C c hfresh]
  · unfold keyMissing at h ⊢
    rw [lookupValue_cons, if_neg (fun hh => hk hh.symm)] at h
    exact h

theorem length_filter_le_of_imp {α : Type} {p q : α → Bool} {l : List α}
    (h : ∀ x ∈ l, p x = true → q x = true) :
    (l.filter p).length ≤ (l.filter q).length := by
  induction l with
  | nil => simp
  | cons a t ih =>
    have ih' := ih (fun x hx => h x (List.mem_cons_of_mem _ hx))
    by_cases hp : p a = true
    · have hq := h a (List.mem_cons_self _ _) hp
      simp only [List.filter_cons, hp, hq, if_true, List.length_cons]
      omega
    · by_cases hq : q a = true
      · simp only [List.filter_cons, hp, hq, if_true, if_false, Bool.false_eq_true,
          List.length_cons]
        omega
      · simp only [List.filter_cons, hp, hq, if_false, Bool.false_eq_true]
        exact ih'

theorem missingKeys_insert_length_le (C : ConditionSet) (c : Condition) (r : Rule)
    (hfresh : ∀ e ∈ C, e.key ≠ c.key) :
    (missingKeys (c :: C) r).length ≤ (missingKeys C r).length := by
  unfold missingKeys
  rw [List.length_map, List.length_map]
  exact length_filter_le_of_imp (fun p _ h => keyMissing_insert_imp C c p.1 hfresh h)

theorem missingKeys_eq_nil_iff (C : ConditionSet) (r : Rule) :
    missingKeys C r = [] ↔ ∀ p ∈ r.requiredConditions, keyMissing C p.1 = false := by
  unfold missingKeys
  rw [List.map_eq_nil, List.filter_eq_nil]
  constructor
  · intro h p hp
    have := h p hp
    simpa using this
  · intro h p hp
    simp [h p hp]

theorem keyMissing_false_ne_fresh (C : ConditionSet) (c : Condition)
    (hfresh : ∀ e ∈ C, e.key ≠ c.key) (k : String) (h : keyMissing C k = false) :
    k ≠ c.key := by
  intro hk
  subst hk
  unfold keyMissing at h
  rw [lookupValue_eq_none_of_fresh C c hfresh] at h
  simp at h

theorem contradicts_insert_of_full (C : ConditionSet) (c : Condition) (r : Rule)
    (hfresh : ∀ e ∈ C, e.key ≠ c.key) (hcon : contradicts C r = false)
    (hmiss : missingKeys C r = []) : contradicts (c :: C) r = false := by
  unfold contradicts at hcon ⊢
  rw [List.any_eq_false] at hcon ⊢
  intro p hp
  have hkm : keyMissing C p.1 = false := (missingKeys_eq_nil_iff C r).1 hmiss p hp
  have hne : p.1 ≠ c.key := keyMissing_false_ne_fresh C c hfresh p.1 hkm
  rw [lookupValue_cons, if_neg (Ne.symm hne)]
  exact hcon p hp

theorem missingKeys_insert_of_full (C : ConditionSet) (c : Condition) (r : Rule)
    (hfresh : ∀ e ∈ C, e.key ≠ c.key) (hmiss : missingKeys C r = []) :
    missingKeys (c :: C) r = [] := by
  rw [missingKeys_eq_nil_iff] at hmiss ⊢
  intro p hp
  have hne := keyMissing_false_ne_fresh C c hfresh p.1 (hmiss p hp)
  unfold keyMissing
  rw [lookupValue_cons, if_neg (Ne.symm hne)]
  exact hmiss p hp

theorem mem_insertRanked {C : ConditionSet} {r x : Rule} :
    ∀ {l : List Rule}, x ∈ insertRanked C r l → x = r ∨ x ∈ l := by
  intro l
  induction l with
  | nil =>
    intro h
    rw [insertRanked] at h
    left
    simpa using h
  | cons y ys ih =>
    intro h
    rw [insertRanked] at h
    split at h
    · rcases List.mem_cons.mp h with h | h
      · exact Or.inl h
      · exact Or.inr h
    · rcases List.mem_cons.mp h with h | h
      · exact Or.inr (List.mem_cons.mpr (Or.inl h))
      · rcases ih h with h | h
        · exact Or.inl h
        · exact Or.inr (List.mem_cons_of_mem _ h)

theorem mem_rankCandidates {C : ConditionSet} {x : Rule} :
    ∀ {l : List Rule}, x ∈ rankCandidates C l → x ∈ l := by
  intro l
  induction l with
  | nil =>
    intro h
    simpa [rankCandidates] using h
  | cons y ys ih =>
    intro h
    have h' : x ∈ insertRanked C y (rankCandidates C ys) := h
    rcases mem_insertRanked h' with h | h
    · exact List.mem_cons.mpr (Or.inl h)
    · exact List.mem_cons_of_mem _ (ih h)

theorem mem_survivorsOf_iff {C : ConditionSet} {R : List Rule} {r : Rule} :
    r ∈ survivorsOf C R ↔ r ∈ R ∧ contradicts C r = false := by
  unfold survivorsOf
  rw [List.mem_filter]
  simp [Bool.not_eq_true']

theorem matchRules_fullMatch_mem {C : ConditionSet} {R : List Rule} {r : Rule}
    (h : matchRules C R = .fullMatch r) : r ∈ fullMatchesOf C R := by
  unfold matchRules at h
  cases hpb : pickBest (fullMatchesOf C R) with
  | none =>
    simp only [hpb] at h
    split at h <;> exact MatchOutcome.noConfusion h
  | some b =>
    simp only [hpb, MatchOutcome.fullMatch.injEq] at h
    subst h
    exact pickBest_mem hpb

theorem matchRules_candidates_mem {C : ConditionSet} {R : List Rule}
    {cs : List (Rule × List String)} (h : matchRules C R = .candidates cs) :
    ∀ p ∈ cs, p.1 ∈ survivorsOf C R := by
  unfold matchRules at h
  cases hpb : pickBest (fullMatchesOf C R) with
  | some b =>
    simp only [hpb] at h
    exact MatchOutcome.noConfusion h
  | none =>
    simp only [hpb] at h
    split at h
    · exact MatchOutcome.noConfusion h
    · simp only [MatchOutcome.candidates.injEq] at h
      subst h
      intro p hp
      rw [List.mem_map] at hp
      obtain ⟨x, hx, rfl⟩ := hp
      exact mem_rankCandidates hx

theorem ruleStatus_eq_contradicted_iff {C : ConditionSet} {r : Rule} :
    ruleStatus C r = .contradicted ↔ contradicts C r = true := by
  unfold ruleStatus
  by_cases h : contradicts C r = true
  · simp [h]
  · rw [Bool.not_eq_true] at h
    simp only [h, Bool.false_eq_true, if_false]
    split <;> simp

theorem ruleStatus_eq_fullMatch_iff {C : ConditionSet} {r : Rule} :
    ruleStatus C r = .fullMatch ↔ contradicts C r = false ∧ missingKeys C r = [] := by
  unfold ruleStatus
  by_cases h : contradicts C r = true
  · simp [h]
  · rw [Bool.not_eq_true] at h
    simp only [h, Bool.false_eq_true, if_false]
    by_cases hm : (missingKeys C r).isEmpty = true
    · simp [hm, List.isEmpty_iff.mp hm, h]
    · rw [Bool.not_eq_true] at hm
      simp only [hm, Bool.false_eq_true, if_false]
      have : missingKeys C r ≠ [] := by
        intro hh
        rw [hh] at hm
        simp at hm
      simp [this, h]

theorem ruleStatus_eq_pending_iff {C : ConditionSet} {r : Rule} {n : Nat} :
    ruleStatus C r = .pending n ↔
      contradicts C r = false ∧ missingKeys C r ≠ [] ∧ (missingKeys C r).length = n := by
  unfold ruleStatus
  by_cases h : contradicts C r = true
  · simp [h]
  · rw [Bool.not_eq_true] at h
    simp only [h, Bool.false_eq_true, if_false]
    by_cases hm : (missingKeys C r).isEmpty = true
    · simp [hm, List.isEmpty_iff.mp hm]
    · rw [Bool.not_eq_true] at hm
      simp only [hm, Bool.false_eq_true, if_false]
      have hne : missingKeys C r ≠ [] := by
        intro hh
        rw [hh] at hm
        simp at hm
      simp [hne, RuleStatus.pending.injEq]

/-- C3: relative to match(C, R), adding a condition c with a key not yet
asserted in C can only eliminate a rule via contradiction or move it
toward (or into) full match: a contradicted rule stays contradicted, a
full match stays a full match, a pending rule becomes contradicted, fully
matched, or pending with no more missing keys than before; and a rule
contradicted under C is never the full-match winner nor a partial
candidate under c :: C. -/
theorem c3_monotonicity (C : ConditionSet) (R : List Rule) (c : Condition) (r : Rule)
    (hfresh : ∀ e ∈ C, e.key ≠ c.key) :
    (ruleStatus C r = .contradicted → ruleStatus (c :: C) r = .contradicted)
    ∧ (ruleStatus C r = .fullMatch → ruleStatus (c :: C) r = .fullMatch)
    ∧ (∀ n, ruleStatus C r = .pending n →
        ruleStatus (c :: C) r = .contradicted
        ∨ ruleStatus (c :: C) r = .fullMatch
        ∨ ∃ m, m ≤ n ∧ ruleStatus (c :: C) r = .pending m)
    ∧ (contradicts C r = true →
        (∀ b, matchRules (c :: C) R = .fullMatch b → b ≠ r)
        ∧ (∀ cs, matchRules (c :: C) R = .candidates cs → ∀ p ∈ cs, p.1 ≠ r)) := by
  refine ⟨?_, ?_, ?_, ?_⟩
  · intro h
    rw [ruleStatus_eq_contradicted_iff] at h ⊢
    exact contradicts_insert_of_contradicts hfresh h
  · intro h
    rw [ruleStatus_eq_fullMatch_iff] at h ⊢
    exact ⟨contradicts_insert_of_full C c r hfresh h.1 h.2,
      missingKeys_insert_of_full C c r hfresh h.2⟩
  · intro n h
    rw [ruleStatus_eq_pending_iff] at h
    by_cases hc : contradicts (c :: C) r = true
    · exact Or.inl (ruleStatus_eq_contradicted_iff.mpr hc)
    · rw [Bool.not_eq_true] at hc
      by_cases hm : missingKeys (c :: C) r = []
      · exact Or.inr (Or.inl (ruleStatus_eq_fullMatch_iff.mpr ⟨hc, hm⟩))
      · refine Or.inr (Or.inr ⟨(missingKeys (c :: C) r).length, ?_, ?_⟩)
        · rw [← h.2.2]
          exact missingKeys_insert_length_le C c r hfresh
        · exact ruleStatus_eq_pending_iff.mpr ⟨hc, hm, rfl⟩
  · intro hcon
    have hcon' : contradicts (c :: C) r = true :=
      contradicts_insert_of_contradicts hfresh hcon
    constructor
    · intro b hb hbr
      subst hbr
      have hmem := matchRules_fullMatch_mem hb
      unfold fullMatchesOf at hmem
      rw [List.mem_filter] at hmem
      have := (mem_survivorsOf_iff.mp hmem.1).2
      rw [hcon'] at this
      cases this
    · intro cs hcs p hp hpr
      have := (mem_survivorsOf_iff.mp (matchRules_candidates_mem hcs p hp)).2
      rw [hpr, hcon'] at this
      cases this

/-- A fresh lethargy condition for the witness of C3. -/
def exCondLethargy : Condition :=
  { key := "lethargy", value := "yes", source := .extracted }

/-- Witness for C3 at concrete data: adding a fresh lethargy condition
keeps the fully matched urgent rule fully matched. -/
theorem c3_monotonicity_witness :
    (∀ e ∈ exCondSet, e.key ≠ exCondLethargy.key)
    ∧ ruleStatus exCondSet exRuleUrgent = .fullMatch
    ∧ ruleStatus (exCondLethargy :: exCondSet) exRuleUrgent = .fullMatch :=
  ⟨by decide, by decide,
   (c3_monotonicity exCondSet exRepo exCondLethargy exRuleUrgent (by decide)).2.1
     (by decide)⟩

/-! ### Determinism (C4) -/

/-- C4: the Rule Matcher is a pure function of its inputs: two calls with
identical ConditionSet and RuleRepository yield an identical MatchOutcome,
including the same tie-break winner and the same ordering of partial
candidates. -/
theorem c4_match_deterministic (Ca Cb : ConditionSet) (Ra Rb : List Rule)
    (hC : Ca = Cb) (hR : Ra = Rb) : matchRules Ca Ra = matchRules Cb Rb := by
  rw [hC, hR]

/-- Witness for C4 at concrete inputs. -/
theorem c4_match_deterministic_witness :
    exCondSet = exCondSet ∧ exRepo = exRepo
    ∧ matchRules exCondSet exRepo = matchRules exCondSet exRepo :=
  ⟨rfl, rfl, c4_match_deterministic exCondSet exCondSet exRepo exRepo rfl rfl⟩

/-! ### Response and request shapes (C5, C6) -/

/-- C5 counterexample: neither response shape declared by the client code
is a record carrying a triage level and an advice string alongside the
conditions snapshot and the rule-checking log — the current ChatResponse
has no triage_level or advice field at all, and the legacy ChatResponse
has neither the snapshot nor the log. -/
theorem c5_counterexample :
    ¬ ("triage_level" ∈ chatResponseFields ∧ "advice" ∈ chatResponseFields)
    ∧ ¬ ("extracted_conditions" ∈ legacyChatResponseFields
         ∧ "rule_checking_logs" ∈ legacyChatResponseFields) := by
  decide

/-- C5 (amended): the spec-modelled engine TurnResult has exactly three
shapes, with the terminal one carrying level, advice, snapshot and log;
but the client code declares no such combined record: the current
response type carries follow_up_question, extracted_conditions and
rule_checking_logs and no triage_level or advice field, while the legacy
response type carries triage_level and advice without snapshot or log. -/
theorem c5_amended_terminal_shape :
    ("follow_up_question" ∈ chatResponseFields
     ∧ "extracted_conditions" ∈ chatResponseFields
     ∧ "rule_checking_logs" ∈ chatResponseFields
     ∧ "triage_level" ∉ chatResponseFields
     ∧ "advice" ∉ chatResponseFields)
    ∧ ("triage_level" ∈ legacyChatResponseFields
       ∧ "advice" ∈ legacyChatResponseFields
       ∧ "extracted_conditions" ∉ legacyChatResponseFields
       ∧ "rule_checking_logs" ∉ legacyChatResponseFields)
    ∧ (∀ t : TurnResult,
        (∃ q snap log, t = .followUp q snap log)
        ∨ (∃ lvl adv snap log, t = .triage lvl adv snap log)
        ∨ (∃ msg, t = .error msg)) := by
  refine ⟨by decide, by decide, ?_⟩
  intro t
  cases t with
  | followUp q snap log => exact Or.inl ⟨q, snap, log, rfl⟩
  | triage lvl adv snap log => exact Or.inr (Or.inl ⟨lvl, adv, snap, log, rfl⟩)
  | error msg => exact Or.inr (Or.inr ⟨msg, rfl⟩)

/-- C6 counterexample: the concrete /chat request the client builds for
the user text "my dog is vomiting" carries no field whose name even
mentions a session. -/
theorem c6_counterexample :
    ¬ ∃ p ∈ chatRequestBody "my dog is vomiting", strContainsSub p.1 "session" = true := by
  decide

/-- C6 (amended): every /chat request either client revision sends
carries exactly one field, user_answer, holding the raw text; no session
identifier accompanies it. -/
theorem c6_amended_request_shape (msg : String) :
    (chatRequestBody msg).map Prod.fst = ["user_answer"]
    ∧ ¬ ∃ p ∈ chatRequestBody msg, strContainsSub p.1 "session" = true := by
  refine ⟨rfl, ?_⟩
  rintro ⟨p, hp, hc⟩
  have hp' : p = ("user_answer", msg) := by simpa [chatRequestBody] using hp
  rw [hp'] at hc
  have hc' : strContainsSub "user_answer" "session" = true := hc
  exact absurd hc' (by decide)

/-! ### Clear resets (C7) -/

/-- C7: clearSession returns the opening follow-up prompt and resets to
the INIT state — empty ConditionSet, zero turn counter — so any
subsequent first turn is literally the first turn of a fresh session; on
the frontend, clearing replaces the message list by the single returned
prompt and discards the system logs, independently of the prior state. -/
theorem c7_clear_resets (s : Session) (fs : FrontState) (q : String) :
    clearSession s = (initialSession, openingFollowUp)
    ∧ (clearSession s).1.conditions = []
    ∧ (clearSession s).1.turnCount = 0
    ∧ (∀ extract R qt mt text,
        submitAnswer extract R qt mt (clearSession s).1 text
          = submitAnswer extract R qt mt initialSession text)
    ∧ handleClearChat fs q
        = { messages := [{ text := q, sender := "bot", isError := false }], systemLogs := [] }
    ∧ (handleClearChat fs q).systemLogs = [] :=
  ⟨rfl, rfl, rfl, fun _ _ _ _ _ => rfl, rfl, rfl⟩

/-! ### Decision Log rebuilt each turn (C8) -/

/-- C8: on a successful follow-up turn the frontend REPLACES the system
logs with the logs built from this turn's response alone: the result
equals buildTurnLogs of the response and is independent of whatever the
log state was before the turn. -/
theorem c8_logs_rebuilt (s1 s2 : FrontState) (u1 u2 : String) (resp : ChatResponse)
    (herr : strTruthy resp.error = false)
    (hq : strTruthy resp.follow_up_question = true) :
    (frontendTurn s1 u1 resp).systemLogs = buildTurnLogs resp
    ∧ (frontendTurn s1 u1 resp).systemLogs = (frontendTurn s2 u2 resp).systemLogs := by
  constructor <;> simp [frontendTurn, processResponse, addMessageF, herr, hq]

/-- A concrete follow-up response for the witness of C8. -/
def exRespFollowUp : ChatResponse :=
  { follow_up_question := some "Is your pet lethargic?",
    extracted_conditions := some "vomiting: yes",
    rule_checking_logs := some ["[Rule] checking rule 1", "[Status] Generating follow-up"],
    error := none }

/-- Witness for C8 at a concrete frontend state and response. -/
theorem c8_logs_rebuilt_witness :
    strTruthy exRespFollowUp.error = false
    ∧ strTruthy exRespFollowUp.follow_up_question = true
    ∧ (frontendTurn initialFrontState "my dog is vomiting" exRespFollowUp).systemLogs
        = buildTurnLogs exRespFollowUp :=
  ⟨by decide, by decide,
   (c8_logs_rebuilt initialFrontState initialFrontState "my dog is vomiting" "again"
     exRespFollowUp (by decide) (by decide)).1⟩

/-! ### Extraction failure leaves the session unchanged (C9) -/

/-- C9: when the external extractor fails, submitAnswer surfaces a
user-visible error result and returns the session exactly as it was — no
condition from the failed extraction is merged, even partially. -/
theorem c9_extraction_failure (extract : String → ConditionSet → Option (List Condition))
    (R : List Rule) (qt : String → String) (mt : Nat) (s : Session) (text : String)
    (hfail : extract text s.conditions = none) :
    submitAnswer extract R qt mt s text = (s, .error extractionFailureMsg) := by
  unfold submitAnswer
  rw [hfail]

/-- An extractor that always fails, for the witness of C9. -/
def failingExtractor : String → ConditionSet → Option (List Condition) :=
  fun _ _ => none

/-- Witness for C9 at a concrete session and input. -/
theorem c9_extraction_failure_witness :
    failingExtractor "gibberish" initialSession.conditions = none
    ∧ submitAnswer failingExtractor exRepo (fun _ => "") 5 initialSession "gibberish"
        = (initialSession, .error extractionFailureMsg) :=
  ⟨rfl, c9_extraction_failure failingExtractor exRepo (fun _ => "") 5 initialSession
    "gibberish" rfl⟩

/-! ### Terminality classified from log text (C10) -/

theorem startsWithList_iff (p l : List Char) :
    startsWithList p l = true ↔ ∃ suf, l = p ++ suf := by
  induction p generalizing l with
  | nil => simp [startsWithList]
  | cons a ps ih =>
    cases l with
    | nil => simp [startsWithList]
    | cons b bs =>
      rw [startsWithList]
      simp only [Bool.and_eq_true, decide_eq_true_eq, ih]
      constructor
      · rintro ⟨rfl, suf, rfl⟩
        exact ⟨suf, rfl⟩
      · rintro ⟨suf, heq⟩
        injection heq with h1 h2
        exact ⟨h1.symm, suf, h2⟩

theorem containsList_iff (pat l : List Char) :
    containsList pat l = true ↔ ∃ pre suf, l = pre ++ (pat ++ suf) := by
  induction l with
  | nil =>
    rw [containsList, startsWithList_iff]
    constructor
    · rintro ⟨suf, h⟩
      exact ⟨[], suf, h⟩
    · rintro ⟨pre, suf, h⟩
      have h' := h.symm
      rw [List.append_eq_nil] at h'
      obtain ⟨hpre, h2⟩ := h'
      rw [List.append_eq_nil] at h2
      refine ⟨[], ?_⟩
      rw [h2.1]
      simp [h2.2]
  | cons c cs ih =>
    rw [containsList]
    simp only [Bool.or_eq_true, startsWithList_iff, ih]
    constructor
    · rintro (⟨suf, h⟩ | ⟨pre, suf, h⟩)
      · exact ⟨[], suf, by simpa using h⟩
      · exact ⟨c :: pre, suf, by simp [h]⟩
    · rintro ⟨pre, suf, h⟩
      cases pre with
      | nil =>
        left
        exact ⟨suf, by simpa using h⟩
      | cons d ds =>
        right
        injection h with h1 h2
        exact ⟨ds, suf, h2⟩

theorem strContainsSub_iff (s pat : String) :
    strContainsSub s pat = true ↔ ∃ pre suf, s.data = pre ++ (pat.data ++ suf) := by
  unfold strContainsSub
  exact containsList_iff pat.data s.data

/-- C10: the frontend classifies a rendered turn as a complete rule match
exactly when some entry of rule_checking_logs contains the literal
substring "[Status] Complete rule match found!" — the system-log block is
then titled "Found a Match", and "Generate Follow-Up Question" otherwise;
the classification is a function of the log text alone. -/
theorem c10_terminal_from_log_text (logs : List String) :
    (hasCompleteMatch logs = true
      ↔ ∃ l ∈ logs, ∃ pre suf, l.data = pre ++ (completeMatchMarker.data ++ suf))
    ∧ (hasCompleteMatch logs = true → logTitle logs = "Found a Match")
    ∧ (hasCompleteMatch logs = false → logTitle logs = "Generate Follow-Up Question") := by
  refine ⟨?_, ?_, ?_⟩
  · unfold hasCompleteMatch
    rw [List.any_eq_true]
    constructor
    · rintro ⟨l, hl, hc⟩
      exact ⟨l, hl, (strContainsSub_iff l completeMatchMarker).mp hc⟩
    · rintro ⟨l, hl, hc⟩
      exact ⟨l, hl, (strContainsSub_iff l completeMatchMarker).mpr hc⟩
  · intro h
    unfold logTitle
    rw [h]
    simp
  · intro h
    unfold logTitle
    rw [h]
    simp

/-- Witness for C10 at a concrete log list containing the marker line. -/
theorem c10_terminal_from_log_text_witness :
    hasCompleteMatch ["[Status] Complete rule match found!"] = true
    ∧ logTitle ["[Status] Complete rule match found!"] = "Found a Match" :=
  ⟨by decide,
   (c10_terminal_from_log_text ["[Status] Complete rule match found!"]).2.1 (by decide)⟩

end Vetbox
